import Mathlib

/-!
# Verification of the trigger-level buffered writer (`triggerLevelWriter`)

A shallow embedding of the `triggerLevelWriter` session from the
`tozd/go-zerolog` repository, together with theorems settling the
specification's claims about it.

The Go code models a "log level per request" sink: log entries at or below
`ConditionalLevel` are buffered (prefixed with a single level byte) until an
entry at or above `TriggerLevel` arrives, at which point the buffer is
drained downstream in order and the session becomes permanently triggered.

Modelling choices:
* `zerolog.Level` is `int8` in Go; we model levels as `Int` and the Go
  conversions `byte(l)` / `zerolog.Level(b)` as explicit arithmetic modulo
  256 (`byteOfLevel` / `levelOfByte`).
* The downstream sink is modelled by a transcript (`output`) of the
  `(level, bytes)` pairs successfully written to it, plus a deterministic
  oracle `f : Oracle` deciding, from the transcript so far and the entry,
  whether the downstream write fails.
* A Go runtime panic (out-of-range slice index in the drain loop) is an
  explicit `Res.panicked` outcome.
* `bytes.IndexByte` is `indexByte` (`none` models Go's `-1` result).
* The `sync.Pool` is modelled only through the counter `poolPuts` of how
  many times the backing buffer was returned to the pool.
-/

namespace TriggerWriter

/-- `byte(l)` for an `int8` level `l`: two's-complement reinterpretation. -/
def byteOfLevel (l : Int) : Nat := (l % 256).toNat

/-- `zerolog.Level(b)` for a byte `b`: two's-complement reinterpretation. -/
def levelOfByte (b : Nat) : Int := if b < 128 then (b : Int) else (b : Int) - 256

/-- `bytes.IndexByte`: index of the first occurrence of `c`, `none` when
absent (Go returns `-1`). -/
def indexByte (c : Nat) : List Nat → Option Nat
  | [] => none
  | b :: rest => if b = c then some 0 else (indexByte c rest).map (· + 1)

/-- An entry as seen by the downstream sink: its level and raw bytes. -/
abbrev Entry := Int × List Nat

/-- Decides whether the downstream write of an entry fails, given the
transcript of entries already written downstream. -/
abbrev Oracle := List Entry → Int → List Nat → Bool

/-- The state of one `triggerLevelWriter` session.  `buf = none` models the
Go field `buf == nil` (session closed).  `output` is the downstream
transcript; `poolPuts` counts `triggerWriterPool.Put` calls. -/
structure WState where
  buf : Option (List Nat)
  triggered : Bool
  output : List Entry
  poolPuts : Nat
deriving Repr, DecidableEq

/-- The outcome of one Go method call: a returned byte count, a returned
error, or a runtime panic. -/
inductive Res where
  | ok (n : Nat)
  | err (e : String)
  | panicked
deriving Repr, DecidableEq

/-- Outcome of a method call together with the session state it leaves
behind. -/
structure Step where
  res : Res
  state : WState
deriving Repr, DecidableEq

/-- The string carried by `errors.New("invalid writer")`. -/
def invalidWriter : String := "invalid writer"

/-- Generic downstream failure marker (the concrete Go error value is
opaque to the session; only its presence matters). -/
def downErr : String := "downstream write error"

/-- One downstream write: `none` on failure, otherwise the state with the
entry appended to the transcript. -/
def writeDown (f : Oracle) (s : WState) (l : Int) (p : List Nat) : Option WState :=
  if f s.output l p then none else some { s with output := s.output ++ [(l, p)] }

/-- The drain loop of `triggerLevelWriter.trigger`, iterating over the
snapshot `p` of the buffer: find the first newline, split off
`line = p[0:i+1]`, recover the level from `line[0]`, forward `line[1:]`
downstream, and continue with `p[i+1:]`.  When no newline is found Go
computes `line = p[0:0]` and then panics on `line[0]`. -/
def drainLoop (f : Oracle) : List Nat → WState → Step
  | [], s => ⟨.ok 0, s⟩
  | b :: rest, s =>
    match indexByte 10 (b :: rest) with
    | none => ⟨.panicked, s⟩
    | some i =>
      let line := (b :: rest).take (i + 1)
      match writeDown f s (levelOfByte b) (line.drop 1) with
      | none => ⟨.err downErr, s⟩
      | some s' => drainLoop f ((b :: rest).drop (i + 1)) s'
termination_by p _ => p.length
decreasing_by
  simp only [List.length_drop, List.length_cons]
  omega

/-- `triggerLevelWriter.trigger` (lock held, `buf ≠ nil` at both call
sites): no-op when already triggered, otherwise set `triggered`, drain the
buffer, and reset the buffer (the Go `defer w.buf.Reset()` runs on the
error path as well). -/
def trigger (f : Oracle) (s : WState) : Step :=
  if s.triggered then ⟨.ok 0, s⟩
  else
    let r := drainLoop f (s.buf.getD []) { s with triggered := true }
    ⟨r.res, { r.state with buf := some [] }⟩

/-- The part of `triggerLevelWriter.WriteLevel` after the trigger check:
unless triggered, buffer everything at and below the conditional level
(returning the full length and no error); anything else is passed through
downstream. -/
def writeCont (f : Oracle) (C : Int) (l : Int) (p : List Nat) (s1 : WState) : Step :=
  if s1.triggered = false ∧ l ≤ C then
    ⟨.ok p.length, { s1 with buf := some ((s1.buf.getD []) ++ (byteOfLevel l :: p)) }⟩
  else
    match writeDown f s1 l p with
    | none => ⟨.err downErr, s1⟩
    | some s2 => ⟨.ok p.length, s2⟩

/-- `triggerLevelWriter.WriteLevel` for a session with conditional level
`C` and trigger level `T`: reject a closed session, run the trigger
transition at the first entry at or above the trigger level (returning its
error, with no write, if the drain fails), then buffer or pass through. -/
def writeLevel (f : Oracle) (C T : Int) (s : WState) (l : Int) (p : List Nat) : Step :=
  if s.buf = none then ⟨.err invalidWriter, s⟩
  else if s.triggered = false ∧ T ≤ l then
    match trigger f s with
    | ⟨.ok _, s1⟩ => writeCont f C l p s1
    | r => r
  else writeCont f C l p s

/-- `triggerLevelWriter.Trigger`: errors after close, otherwise the
internal trigger transition. -/
def triggerOp (f : Oracle) (s : WState) : Step :=
  if s.buf = none then ⟨.err invalidWriter, s⟩
  else trigger f s

/-- `triggerLevelWriter.Close`: no-op after close; otherwise resets the
buffer, returns it to the pool, and marks the session closed. -/
def close (s : WState) : Step :=
  if s.buf = none then ⟨.ok 0, s⟩
  else ⟨.ok 0, { s with buf := none, poolPuts := s.poolPuts + 1 }⟩

/-- The state produced by `newTriggerLevelWriter`: an open, untriggered
session with an empty buffer. -/
def fresh : WState := ⟨some [], false, [], 0⟩

/-- One external operation on a session. -/
inductive Op where
  | write (l : Int) (p : List Nat)
  | trig
  | closeOp
deriving Repr, DecidableEq

/-- Apply one operation. -/
def stepOp (f : Oracle) (C T : Int) (s : WState) : Op → Step
  | .write l p => writeLevel f C T s l p
  | .trig => triggerOp f s
  | .closeOp => close s

/-- Run a sequence of operations, threading the session state (Go callers
keep the same session around whether or not individual calls errored). -/
def runOps (f : Oracle) (C T : Int) : List Op → WState → WState
  | [], s => s
  | op :: ops, s => runOps f C T ops (stepOp f C T s op).state

/-- `true` iff no operation in the sequence panics. -/
def runSafe (f : Oracle) (C T : Int) : List Op → WState → Bool
  | [], _ => true
  | op :: ops, s =>
    let st := stepOp f C T s op
    decide (st.res ≠ .panicked) && runSafe f C T ops st.state

/-- The single buffered form of an entry: one level byte, then the raw
bytes (`w.buf.WriteByte(byte(l)); w.buf.Write(p)`). -/
def encodeEntry (e : Entry) : List Nat := byteOfLevel e.1 :: e.2

/-- Buffer contents after appending a list of entries to an empty buffer. -/
def encodeBuf (es : List Entry) : List Nat := (es.map encodeEntry).flatten

/-- A payload that is one complete newline-terminated log line: it ends
with the newline byte `10` and contains no other newline byte. -/
def nlTerminated (p : List Nat) : Prop := ∃ body, p = body ++ [10] ∧ 10 ∉ body

/-- `l` fits in the Go type `int8` of `zerolog.Level`. -/
def int8Range (l : Int) : Prop := -128 ≤ l ∧ l < 128

instance (l : Int) : Decidable (int8Range l) :=
  decidable_of_iff (-128 ≤ l ∧ l < 128) Iff.rfl

/-- A well-formed entry: `int8` level whose byte is not the newline byte,
and a newline-terminated payload. -/
def goodEntry (e : Entry) : Prop :=
  int8Range e.1 ∧ byteOfLevel e.1 ≠ 10 ∧ nlTerminated e.2

/-- The oracle of an always-accepting downstream sink. -/
def noFail : Oracle := fun _ _ _ => false

/-- A downstream sink that accepts exactly one write and rejects every
later one (used to exhibit drains that fail part-way). -/
def failAfterOne : Oracle := fun out _ _ => decide (1 ≤ out.length)

/-- The buffer is empty or its last byte is the newline byte `10`.  This is
the invariant that keeps the drain loop's newline scan from failing. -/
def endsNL (p : List Nat) : Prop := p = [] ∨ p.getLast? = some 10

/-- Every buffer the session still holds is empty or newline-terminated. -/
def bufInv (s : WState) : Prop := ∀ b, s.buf = some b → endsNL b

/-- The `WriteLevel` operations corresponding to a list of entries. -/
def writes (es : List Entry) : List Op := es.map fun e => Op.write e.1 e.2

/-- The entries of a sequence that an untriggered session buffers (level at
or below the conditional level). -/
def lowEntries (C : Int) (es : List Entry) : List Entry :=
  es.filter fun e => decide (e.1 ≤ C)

/-- The entries of a sequence that even an untriggered session passes
straight through (level above the conditional level). -/
def highEntries (C : Int) (es : List Entry) : List Entry :=
  es.filter fun e => decide (C < e.1)

/-! ## Basic lemmas about the byte-level encoding -/

theorem levelOfByte_byteOfLevel {l : Int} (h : int8Range l) :
    levelOfByte (byteOfLevel l) = l := by
  obtain ⟨h1, h2⟩ := h
  simp only [levelOfByte, byteOfLevel]
  split <;> omega

theorem byteOfLevel_lt (l : Int) : byteOfLevel l < 256 := by
  simp only [byteOfLevel]
  omega

theorem indexByte_eq_none {c : Nat} {p : List Nat} :
    indexByte c p = none ↔ c ∉ p := by
  induction p with
  | nil => simp [indexByte]
  | cons b rest ih =>
    by_cases h : b = c
    · simp [indexByte, h]
    · simp [indexByte, h, Option.map_eq_none', ih, Ne.symm h]

theorem indexByte_split {body : List Nat} (rest : List Nat) (h : 10 ∉ body) :
    indexByte 10 (body ++ 10 :: rest) = some body.length := by
  induction body with
  | nil => simp [indexByte]
  | cons a body ih =>
    rw [List.mem_cons, not_or] at h
    have ha : ¬ a = 10 := fun hh => h.1 hh.symm
    simp [indexByte, ha, ih h.2]

theorem take_split {body rest : List Nat} (c : Nat) :
    (body ++ c :: rest).take (body.length + 1) = body ++ [c] := by
  induction body with
  | nil => simp
  | cons a body ih => simp [ih]

theorem drop_split {body rest : List Nat} (c : Nat) :
    (body ++ c :: rest).drop (body.length + 1) = rest := by
  induction body with
  | nil => simp
  | cons a body ih => simp [ih]

/-- One round of the drain loop on a well-formed buffered record: recover
the record's level and payload, write it downstream, and continue on the
remaining bytes. -/
theorem drainLoop_cons (f : Oracle) {l : Int} {body : List Nat} (rest : List Nat)
    (s : WState) (hr : int8Range l) (hnl : byteOfLevel l ≠ 10) (hb : 10 ∉ body) :
    drainLoop f (encodeEntry (l, body ++ [10]) ++ rest) s =
      match writeDown f s l (body ++ [10]) with
      | none => ⟨.err downErr, s⟩
      | some s' => drainLoop f rest s' := by
  have hmem : 10 ∉ byteOfLevel l :: body := by
    rw [List.mem_cons, not_or]
    exact ⟨fun hh => hnl hh.symm, hb⟩
  have hidx := indexByte_split rest hmem
  simp only [List.cons_append, List.length_cons] at hidx
  have hshape : encodeEntry (l, body ++ [10]) ++ rest
      = byteOfLevel l :: (body ++ 10 :: rest) := by
    simp [encodeEntry]
  rw [hshape, drainLoop, hidx]
  have htake : (byteOfLevel l :: (body ++ 10 :: rest)).take (body.length + 1 + 1)
      = byteOfLevel l :: (body ++ [10]) := by
    rw [List.take_succ_cons]
    exact congrArg _ (take_split 10)
  have hdrop : (byteOfLevel l :: (body ++ 10 :: rest)).drop (body.length + 1 + 1)
      = rest := by
    rw [List.drop_succ_cons]
    exact drop_split 10
  simp only [htake, hdrop, List.drop_succ_cons, List.drop_zero,
    levelOfByte_byteOfLevel hr]

theorem encodeBuf_nil : encodeBuf [] = [] := rfl

theorem encodeBuf_cons (e : Entry) (es : List Entry) :
    encodeBuf (e :: es) = encodeEntry e ++ encodeBuf es := by
  simp [encodeBuf]

theorem encodeBuf_snoc (es : List Entry) (e : Entry) :
    encodeBuf (es ++ [e]) = encodeBuf es ++ encodeEntry e := by
  simp [encodeBuf]

/-! ## The drain loop on well-formed buffers -/

/-- With an always-accepting downstream sink, draining the encoding of a
list of well-formed records forwards exactly those records, in order. -/
theorem drainLoop_ok (f : Oracle) (hf : ∀ o l p, f o l p = false)
    (es : List Entry) (s : WState) (hgood : ∀ e ∈ es, goodEntry e) :
    drainLoop f (encodeBuf es) s = ⟨.ok 0, { s with output := s.output ++ es }⟩ := by
  induction es generalizing s with
  | nil => simp [encodeBuf, drainLoop]
  | cons e es ih =>
    obtain ⟨l, p⟩ := e
    obtain ⟨hr, hnl, body, hbody, hb⟩ := hgood (l, p) (List.mem_cons_self _ _)
    subst hbody
    rw [encodeBuf_cons, drainLoop_cons f (encodeBuf es) s hr hnl hb]
    simp only [writeDown, hf, Bool.false_eq_true, if_false]
    rw [ih _ (fun e he => hgood e (List.mem_cons_of_mem _ he))]
    simp

/-- If the downstream sink accepts each of the records in `pre` (in the
order drained) but rejects `bad`, the drain forwards exactly `pre`, stops
at `bad`, and reports the failure. -/
theorem drainLoop_err (f : Oracle) (pre : List Entry) (bad : Entry)
    (tail : List Entry) (s : WState)
    (hgood : ∀ e ∈ pre, goodEntry e) (hbad : goodEntry bad)
    (hok : ∀ i (h : i < pre.length),
      f (s.output ++ pre.take i) pre[i].1 pre[i].2 = false)
    (hfail : f (s.output ++ pre) bad.1 bad.2 = true) :
    drainLoop f (encodeBuf (pre ++ bad :: tail)) s =
      ⟨.err downErr, { s with output := s.output ++ pre }⟩ := by
  induction pre generalizing s with
  | nil =>
    obtain ⟨l, p⟩ := bad
    obtain ⟨hr, hnl, body, hbody, hb⟩ := hbad
    subst hbody
    rw [List.nil_append, encodeBuf_cons, drainLoop_cons f (encodeBuf tail) s hr hnl hb]
    simp only [List.append_nil] at hfail
    simp [writeDown, hfail]
  | cons e pre ih =>
    obtain ⟨l, p⟩ := e
    obtain ⟨hr, hnl, body, hbody, hb⟩ := hgood (l, p) (List.mem_cons_self _ _)
    subst hbody
    rw [List.cons_append, encodeBuf_cons,
      drainLoop_cons f (encodeBuf (pre ++ bad :: tail)) s hr hnl hb]
    have h0 := hok 0 (by simp)
    simp only [List.take_zero, List.append_nil, List.getElem_cons_zero] at h0
    simp only [writeDown, h0, Bool.false_eq_true, if_false]
    rw [ih _ (fun e he => hgood e (List.mem_cons_of_mem _ he))
      (fun i h => by
        have := hok (i + 1) (by simpa using Nat.succ_lt_succ h)
        simpa [List.take_succ_cons, List.append_assoc] using this)
      (by simpa [List.append_assoc] using hfail)]
    simp

/-- A list whose last byte is a newline keeps that property under `drop`
(unless it becomes empty). -/
theorem endsNL_drop {p : List Nat} (h : endsNL p) (k : Nat) : endsNL (p.drop k) := by
  rcases h with h | h
  · subst h; left; simp
  · by_cases hk : p.length ≤ k
    · left; exact List.drop_eq_nil_of_le hk
    · right
      have hne : p.drop k ≠ [] := by
        intro hnil
        have := List.drop_eq_nil_iff.mp hnil
        omega
      calc (p.drop k).getLast? = (p.take k ++ p.drop k).getLast? :=
            (congrArg List.getLast? (List.take_append_drop k p)).symm ▸
              (List.getLast?_append_of_ne_nil _ hne).symm
        _ = p.getLast? := by rw [List.take_append_drop]
        _ = some 10 := h

/-- The drain loop never panics on a buffer that is empty or ends with a
newline byte: the newline scan always finds a terminator. -/
theorem drainLoop_no_panic (f : Oracle) :
    ∀ (n : Nat) (p : List Nat) (s : WState), p.length ≤ n → endsNL p →
      (drainLoop f p s).res ≠ .panicked := by
  intro n
  induction n with
  | zero =>
    intro p s hn _
    have : p = [] := List.length_eq_zero.mp (Nat.le_zero.mp hn)
    subst this
    simp [drainLoop]
  | succ n ih =>
    intro p s hn h
    match p with
    | [] => simp [drainLoop]
    | b :: rest =>
      rcases h with h | h
      · exact absurd h (by simp)
      · have hmem : (10 : Nat) ∈ b :: rest := by
          obtain ⟨hne, heq⟩ := List.mem_getLast?_eq_getLast (Option.mem_def.mpr h)
          exact heq ▸ List.getLast_mem hne
        have hnone : indexByte 10 (b :: rest) ≠ none := by
          rw [Ne, indexByte_eq_none]
          simp [hmem]
        obtain ⟨i, hi⟩ := Option.ne_none_iff_exists'.mp hnone
        rw [drainLoop, hi]
        show (match writeDown f s (levelOfByte b) (((b :: rest).take (i + 1)).drop 1) with
          | none => Step.mk (.err downErr) s
          | some s' => drainLoop f ((b :: rest).drop (i + 1)) s').res ≠ .panicked
        rcases hw : writeDown f s (levelOfByte b) (((b :: rest).take (i + 1)).drop 1)
          with _ | s'
        · simp
        · exact ih _ s'
            (by
              simp only [List.length_drop, List.length_cons]
              simp only [List.length_cons] at hn
              omega)
            (endsNL_drop (Or.inr h) (i + 1))

/-! ## Behaviour of the individual operations -/

theorem writeDown_some {f : Oracle} {s s2 : WState} {l : Int} {p : List Nat}
    (h : writeDown f s l p = some s2) :
    s2 = { s with output := s.output ++ [(l, p)] } := by
  by_cases hf : f s.output l p = true
  · simp [writeDown, hf] at h
  · simp only [writeDown, hf, if_neg] at h
    simp only [Bool.not_eq_true] at hf
    simp [writeDown, hf] at h
    exact h.symm

theorem writeDown_noFail {f : Oracle} {s : WState} {l : Int} {p : List Nat}
    (hf : f s.output l p = false) :
    writeDown f s l p = some { s with output := s.output ++ [(l, p)] } := by
  simp [writeDown, hf]

/-- A successful drain of a well-formed buffer through the internal
`trigger` transition: the buffered records go downstream in order, the
session becomes triggered and its buffer is reset. -/
theorem trigger_ok (f : Oracle) (hf : ∀ o l p, f o l p = false)
    {s : WState} {es : List Entry}
    (hbuf : s.buf = some (encodeBuf es)) (htr : s.triggered = false)
    (hgood : ∀ e ∈ es, goodEntry e) :
    trigger f s = ⟨.ok 0, ⟨some [], true, s.output ++ es, s.poolPuts⟩⟩ := by
  rw [trigger, htr, if_neg (by simp)]
  rw [show s.buf.getD [] = encodeBuf es from by rw [hbuf]; rfl]
  rw [drainLoop_ok f hf es _ hgood]

/-- `trigger` on an already-triggered session is a no-op. -/
theorem trigger_already (f : Oracle) {s : WState} (htr : s.triggered = true) :
    trigger f s = ⟨.ok 0, s⟩ := by
  rw [trigger, htr, if_pos rfl]

/-- A failing drain: the records before the failing one are forwarded, the
error is reported, the session is nevertheless triggered and its buffer is
reset (the Go `defer w.buf.Reset()` runs on the error path). -/
theorem trigger_err (f : Oracle) {s : WState} {pre : List Entry} {bad : Entry}
    {tail : List Entry}
    (hbuf : s.buf = some (encodeBuf (pre ++ bad :: tail))) (htr : s.triggered = false)
    (hgood : ∀ e ∈ pre, goodEntry e) (hbad : goodEntry bad)
    (hok : ∀ i (h : i < pre.length),
      f (s.output ++ pre.take i) pre[i].1 pre[i].2 = false)
    (hfail : f (s.output ++ pre) bad.1 bad.2 = true) :
    trigger f s = ⟨.err downErr, ⟨some [], true, s.output ++ pre, s.poolPuts⟩⟩ := by
  rw [trigger, htr, if_neg (by simp)]
  rw [show s.buf.getD [] = encodeBuf (pre ++ bad :: tail) from by rw [hbuf]; rfl]
  rw [drainLoop_err f pre bad tail { s with triggered := true } hgood hbad hok hfail]

/-- `WriteLevel` after `Close` fails with the invalid-writer error and
changes nothing. -/
theorem writeLevel_closed (f : Oracle) (C T : Int) {s : WState}
    (hbuf : s.buf = none) (l : Int) (p : List Nat) :
    writeLevel f C T s l p = ⟨.err invalidWriter, s⟩ := by
  rw [writeLevel, if_pos hbuf]

/-- `WriteLevel` in the buffering regime: open, untriggered, level below
the trigger level and at or below the conditional level.  The entry is
appended to the buffer with its level-prefix byte; the full length is
reported and nothing reaches the downstream sink. -/
theorem writeLevel_buffer (f : Oracle) (C T : Int) {s : WState} {b : List Nat}
    (hbuf : s.buf = some b) (htr : s.triggered = false) {l : Int}
    (hlT : l < T) (hlC : l ≤ C) (p : List Nat) :
    writeLevel f C T s l p =
      ⟨.ok p.length, { s with buf := some (b ++ byteOfLevel l :: p) }⟩ := by
  rw [writeLevel, if_neg (by rw [hbuf]; simp),
    if_neg (by rintro ⟨-, hTl⟩; exact absurd hTl (not_le.mpr hlT))]
  rw [writeCont, if_pos ⟨htr, hlC⟩]
  rw [show s.buf.getD [] = b from by rw [hbuf]; rfl]

/-- `WriteLevel` in the pass-through regime with no pending trigger
transition: either the session is already triggered, or the level lies
strictly between the conditional and the trigger level. -/
theorem writeLevel_pass (f : Oracle) (C T : Int) {s : WState} {b : List Nat}
    (hbuf : s.buf = some b) {l : Int}
    (hcase : s.triggered = true ∨ (s.triggered = false ∧ C < l ∧ l < T))
    (p : List Nat) (hf : f s.output l p = false) :
    writeLevel f C T s l p =
      ⟨.ok p.length, { s with output := s.output ++ [(l, p)] }⟩ := by
  rw [writeLevel, if_neg (by rw [hbuf]; simp)]
  rcases hcase with htr | ⟨htr, hC, hT⟩
  · rw [if_neg (by rw [htr]; rintro ⟨h1, -⟩; cases h1)]
    rw [writeCont, if_neg (by rw [htr]; rintro ⟨h1, -⟩; cases h1)]
    rw [writeDown_noFail hf]
  · rw [if_neg (by rintro ⟨-, hTl⟩; exact absurd hTl (not_le.mpr hT))]
    rw [writeCont, if_neg (by rintro ⟨-, hlC⟩; exact absurd hlC (not_le.mpr hC))]
    rw [writeDown_noFail hf]

/-- `WriteLevel` crossing the trigger level on an open untriggered session
with a well-formed buffer and an accepting sink: the buffered records are
drained in order, then the triggering entry itself is forwarded. -/
theorem writeLevel_trigger (f : Oracle) (hf : ∀ o l p, f o l p = false)
    (C T : Int) {s : WState} {es : List Entry}
    (hbuf : s.buf = some (encodeBuf es)) (htr : s.triggered = false)
    (hgood : ∀ e ∈ es, goodEntry e) {l : Int} (hl : T ≤ l) (p : List Nat) :
    writeLevel f C T s l p =
      ⟨.ok p.length, ⟨some [], true, s.output ++ es ++ [(l, p)], s.poolPuts⟩⟩ := by
  rw [writeLevel, if_neg (by rw [hbuf]; simp), if_pos ⟨htr, hl⟩,
    trigger_ok f hf hbuf htr hgood]
  show writeCont f C l p ⟨some [], true, s.output ++ es, s.poolPuts⟩ = _
  rw [writeCont, if_neg (by rintro ⟨h1, -⟩; cases h1)]
  rw [writeDown_noFail (hf _ _ _)]

/-- `WriteLevel` crossing the trigger level when the drain fails: the
error propagates to the caller, the triggering entry itself is not
forwarded, yet the session is triggered. -/
theorem writeLevel_trigger_err (f : Oracle) (C T : Int) {s : WState}
    {pre : List Entry} {bad : Entry} {tail : List Entry}
    (hbuf : s.buf = some (encodeBuf (pre ++ bad :: tail))) (htr : s.triggered = false)
    (hgood : ∀ e ∈ pre, goodEntry e) (hbad : goodEntry bad)
    (hok : ∀ i (h : i < pre.length),
      f (s.output ++ pre.take i) pre[i].1 pre[i].2 = false)
    (hfail : f (s.output ++ pre) bad.1 bad.2 = true)
    {l : Int} (hl : T ≤ l) (p : List Nat) :
    writeLevel f C T s l p =
      ⟨.err downErr, ⟨some [], true, s.output ++ pre, s.poolPuts⟩⟩ := by
  rw [writeLevel, if_neg (by rw [hbuf]; simp), if_pos ⟨htr, hl⟩,
    trigger_err f hbuf htr hgood hbad hok hfail]

/-! ## Sequences of operations -/

theorem writes_cons (e : Entry) (es : List Entry) :
    writes (e :: es) = Op.write e.1 e.2 :: writes es := by
  simp [writes]

theorem lowEntries_cons_of_le {C : Int} {e : Entry} (h : e.1 ≤ C) (es : List Entry) :
    lowEntries C (e :: es) = e :: lowEntries C es := by
  simp [lowEntries, List.filter_cons, h]

theorem lowEntries_cons_of_gt {C : Int} {e : Entry} (h : C < e.1) (es : List Entry) :
    lowEntries C (e :: es) = lowEntries C es := by
  simp [lowEntries, List.filter_cons, not_le.mpr h]

theorem highEntries_cons_of_le {C : Int} {e : Entry} (h : e.1 ≤ C) (es : List Entry) :
    highEntries C (e :: es) = highEntries C es := by
  simp [highEntries, List.filter_cons, not_lt.mpr h]

theorem highEntries_cons_of_gt {C : Int} {e : Entry} (h : C < e.1) (es : List Entry) :
    highEntries C (e :: es) = e :: highEntries C es := by
  simp [highEntries, List.filter_cons, h]

/-- Running a sequence of writes all strictly below the trigger level on an
open untriggered session: entries at or below the conditional level are
appended to the buffer in order, the rest are passed straight through; the
session stays untriggered. -/
theorem runOps_writes_untriggered (f : Oracle) (hf : ∀ o l p, f o l p = false)
    (C T : Int) (ws : List Entry) :
    ∀ (s : WState) (b : List Nat), s.buf = some b → s.triggered = false →
      (∀ e ∈ ws, e.1 < T) →
      runOps f C T (writes ws) s =
        { s with buf := some (b ++ encodeBuf (lowEntries C ws)),
                 output := s.output ++ highEntries C ws } := by
  induction ws with
  | nil =>
    intro s b hb htr _
    simp [writes, runOps, lowEntries, highEntries, encodeBuf, ← hb]
  | cons e ws ih =>
    intro s b hb htr hlev
    obtain ⟨l, p⟩ := e
    have hlT : l < T := hlev (l, p) (List.mem_cons_self _ _)
    have hlev' : ∀ e ∈ ws, e.1 < T := fun e he => hlev e (List.mem_cons_of_mem _ he)
    rw [writes_cons]
    show runOps f C T (writes ws) (writeLevel f C T s l p).state = _
    by_cases hlC : l ≤ C
    · rw [writeLevel_buffer f C T hb htr hlT hlC p]
      show runOps f C T (writes ws) { s with buf := some (b ++ byteOfLevel l :: p) } = _
      rw [ih { s with buf := some (b ++ byteOfLevel l :: p) } _ rfl htr hlev']
      rw [lowEntries_cons_of_le hlC, highEntries_cons_of_le hlC, encodeBuf_cons]
      simp [encodeEntry]
    · have hC : C < l := not_le.mp hlC
      rw [writeLevel_pass f C T hb (Or.inr ⟨htr, hC, hlT⟩) p (hf _ _ _)]
      show runOps f C T (writes ws) { s with output := s.output ++ [(l, p)] } = _
      rw [ih { s with output := s.output ++ [(l, p)] } b hb htr hlev']
      rw [lowEntries_cons_of_gt hC, highEntries_cons_of_gt hC]
      simp

/-- Once the session is triggered, every write is passed straight through
downstream, whatever its level. -/
theorem runOps_writes_triggered (f : Oracle) (hf : ∀ o l p, f o l p = false)
    (C T : Int) (ws : List Entry) :
    ∀ (s : WState) (b : List Nat), s.buf = some b → s.triggered = true →
      runOps f C T (writes ws) s = { s with output := s.output ++ ws } := by
  induction ws with
  | nil =>
    intro s b hb htr
    simp [writes, runOps]
  | cons e ws ih =>
    intro s b hb htr
    obtain ⟨l, p⟩ := e
    rw [writes_cons]
    show runOps f C T (writes ws) (writeLevel f C T s l p).state = _
    rw [writeLevel_pass f C T hb (Or.inl htr) p (hf _ _ _)]
    show runOps f C T (writes ws) { s with output := s.output ++ [(l, p)] } = _
    rw [ih { s with output := s.output ++ [(l, p)] } b hb htr]
    simp

theorem runOps_append (f : Oracle) (C T : Int) :
    ∀ (ops1 ops2 : List Op) (s : WState),
      runOps f C T (ops1 ++ ops2) s = runOps f C T ops2 (runOps f C T ops1 s) := by
  intro ops1
  induction ops1 with
  | nil => intro ops2 s; rfl
  | cons op ops ih => intro ops2 s; exact ih ops2 _

theorem writes_take (k : Nat) (es : List Entry) :
    (writes es).take k = writes (es.take k) := by
  simp [writes, List.map_take]

/-- Writes whose levels are strictly below the trigger level and at or
below the conditional level are all buffered; nothing else changes and the
downstream sink is never consulted. -/
theorem runOps_writes_buffered (f : Oracle) (C T : Int) (ws : List Entry) :
    ∀ (s : WState) (b : List Nat), s.buf = some b → s.triggered = false →
      (∀ e ∈ ws, e.1 < T ∧ e.1 ≤ C) →
      runOps f C T (writes ws) s = { s with buf := some (b ++ encodeBuf ws) } := by
  induction ws with
  | nil =>
    intro s b hb htr _
    simp [writes, runOps, encodeBuf, ← hb]
  | cons e ws ih =>
    intro s b hb htr hlev
    obtain ⟨l, p⟩ := e
    obtain ⟨hlT, hlC⟩ := hlev (l, p) (List.mem_cons_self _ _)
    rw [writes_cons]
    show runOps f C T (writes ws) (writeLevel f C T s l p).state = _
    rw [writeLevel_buffer f C T hb htr hlT hlC p]
    show runOps f C T (writes ws) { s with buf := some (b ++ byteOfLevel l :: p) } = _
    rw [ih { s with buf := some (b ++ byteOfLevel l :: p) } _ rfl htr
      (fun e he => hlev e (List.mem_cons_of_mem _ he))]
    rw [encodeBuf_cons]
    simp [encodeEntry]

theorem close_state_output (s : WState) : ((close s).state).output = s.output := by
  rw [close]
  by_cases hb : s.buf = none
  · rw [if_pos hb]
  · rw [if_neg hb]

/-- The drain loop only appends to the downstream transcript; the buffer,
the trigger flag and the pool counter are untouched. -/
theorem drainLoop_fields (f : Oracle) :
    ∀ (n : Nat) (p : List Nat) (s : WState), p.length ≤ n →
      (drainLoop f p s).state.buf = s.buf ∧
      (drainLoop f p s).state.triggered = s.triggered ∧
      (drainLoop f p s).state.poolPuts = s.poolPuts := by
  intro n
  induction n with
  | zero =>
    intro p s hn
    have : p = [] := List.length_eq_zero.mp (Nat.le_zero.mp hn)
    subst this
    simp [drainLoop]
  | succ n ih =>
    intro p s hn
    match p with
    | [] => simp [drainLoop]
    | b :: rest =>
      rw [drainLoop]
      rcases hi : indexByte 10 (b :: rest) with _ | i
      · exact ⟨rfl, rfl, rfl⟩
      · show (match writeDown f s (levelOfByte b) (((b :: rest).take (i + 1)).drop 1) with
            | none => Step.mk (.err downErr) s
            | some s' => drainLoop f ((b :: rest).drop (i + 1)) s').state.buf = s.buf ∧
          (match writeDown f s (levelOfByte b) (((b :: rest).take (i + 1)).drop 1) with
            | none => Step.mk (.err downErr) s
            | some s' => drainLoop f ((b :: rest).drop (i + 1)) s').state.triggered
              = s.triggered ∧
          (match writeDown f s (levelOfByte b) (((b :: rest).take (i + 1)).drop 1) with
            | none => Step.mk (.err downErr) s
            | some s' => drainLoop f ((b :: rest).drop (i + 1)) s').state.poolPuts
              = s.poolPuts
        rcases hw : writeDown f s (levelOfByte b) (((b :: rest).take (i + 1)).drop 1)
          with _ | s'
        · exact ⟨rfl, rfl, rfl⟩
        · have hlen : ((b :: rest).drop (i + 1)).length ≤ n := by
            simp only [List.length_drop, List.length_cons]
            simp only [List.length_cons] at hn
            omega
          obtain ⟨h1, h2, h3⟩ := ih ((b :: rest).drop (i + 1)) s' hlen
          have hs' := writeDown_some hw
          exact ⟨h1.trans (by rw [hs']), h2.trans (by rw [hs']),
            h3.trans (by rw [hs'])⟩

/-- No operation ever resets the `triggered` flag. -/
theorem stepOp_triggered_mono (f : Oracle) (C T : Int) (s : WState) (op : Op)
    (h : s.triggered = true) : ((stepOp f C T s op).state).triggered = true := by
  cases op with
  | write l p =>
    by_cases hb : s.buf = none
    · show ((writeLevel f C T s l p).state).triggered = true
      rw [writeLevel_closed f C T hb]
      exact h
    · show ((writeLevel f C T s l p).state).triggered = true
      rw [writeLevel, if_neg hb, if_neg (by rw [h]; rintro ⟨h1, -⟩; cases h1)]
      rw [writeCont, if_neg (by rw [h]; rintro ⟨h1, -⟩; cases h1)]
      rcases hw : writeDown f s l p with _ | s2
      · exact h
      · rw [writeDown_some hw]
        exact h
  | trig =>
    show ((triggerOp f s).state).triggered = true
    rw [triggerOp]
    by_cases hb : s.buf = none
    · rw [if_pos hb]; exact h
    · rw [if_neg hb, trigger_already f h]; exact h
  | closeOp =>
    show ((close s).state).triggered = true
    rw [close]
    by_cases hb : s.buf = none
    · rw [if_pos hb]; exact h
    · rw [if_neg hb]; exact h

/-- The `triggered` flag is monotonic along any sequence of operations. -/
theorem runOps_triggered_mono (f : Oracle) (C T : Int) :
    ∀ (ops : List Op) (s : WState), s.triggered = true →
      (runOps f C T ops s).triggered = true := by
  intro ops
  induction ops with
  | nil => intro s h; exact h
  | cons op ops ih => intro s h; exact ih _ (stepOp_triggered_mono f C T s op h)

/-! ## Absence of panics -/

theorem endsNL_nil : endsNL [] := Or.inl rfl

theorem endsNL_snoc10 (z : List Nat) : endsNL (z ++ [10]) := by
  right
  rw [show z ++ [10] = z ++ 10 :: [] from rfl, List.getLast?_append_cons]
  rfl

/-- Appending a level byte and a newline-terminated payload keeps the
buffer newline-terminated. -/
theorem endsNL_buffer_append (z : List Nat) (c : Nat) {p : List Nat}
    (hp : nlTerminated p) : endsNL (z ++ c :: p) := by
  obtain ⟨body, rfl, -⟩ := hp
  rw [show z ++ c :: (body ++ [10]) = (z ++ c :: body) ++ [10] from by simp]
  exact endsNL_snoc10 _

theorem bufInv_drain_arg {s : WState} (h : bufInv s) : endsNL (s.buf.getD []) := by
  cases hb : s.buf with
  | none => exact endsNL_nil
  | some b => exact h b hb

/-- The internal trigger transition never panics on a session whose buffer
is newline-terminated, and it leaves such a session. -/
theorem trigger_safe {f : Oracle} {s : WState} (h : bufInv s) :
    (trigger f s).res ≠ .panicked ∧ bufInv (trigger f s).state := by
  by_cases htr : s.triggered = true
  · rw [trigger_already f htr]
    exact ⟨by simp, h⟩
  · have htr' : s.triggered = false := by simpa using htr
    rw [trigger, htr', if_neg (by simp)]
    refine ⟨?_, ?_⟩
    · show (drainLoop f (s.buf.getD []) { s with triggered := true }).res ≠ .panicked
      exact drainLoop_no_panic f _ _ _ le_rfl (bufInv_drain_arg h)
    · show bufInv
        { (drainLoop f (s.buf.getD []) { s with triggered := true }).state with
          buf := some [] }
      intro b hb
      simp only [Option.some.injEq] at hb
      subst hb
      exact endsNL_nil

/-- The buffering / pass-through phase never panics and preserves the
newline-terminated-buffer invariant. -/
theorem writeCont_safe (f : Oracle) (C l : Int) {p : List Nat} {s1 : WState}
    (h1 : bufInv s1) (hp : nlTerminated p) :
    (writeCont f C l p s1).res ≠ .panicked ∧ bufInv (writeCont f C l p s1).state := by
  rw [writeCont]
  by_cases hcond : s1.triggered = false ∧ l ≤ C
  · rw [if_pos hcond]
    refine ⟨by simp, ?_⟩
    intro b2 hb2
    simp only [Option.some.injEq] at hb2
    subst hb2
    exact endsNL_buffer_append _ _ hp
  · rw [if_neg hcond]
    rcases hw : writeDown f s1 l p with _ | s2
    · exact ⟨by simp, h1⟩
    · refine ⟨by simp, ?_⟩
      rw [writeDown_some hw]
      intro b2 hb2
      exact h1 b2 hb2

/-- `WriteLevel` never panics on a session whose buffer is
newline-terminated, provided the written payload is newline-terminated; the
session it leaves behind again has a newline-terminated buffer. -/
theorem writeLevel_safe (f : Oracle) (C T : Int) {s : WState} (h : bufInv s)
    (l : Int) {p : List Nat} (hp : nlTerminated p) :
    (writeLevel f C T s l p).res ≠ .panicked ∧
      bufInv (writeLevel f C T s l p).state := by
  by_cases hb : s.buf = none
  · rw [writeLevel_closed f C T hb]
    exact ⟨by simp, h⟩
  · rw [writeLevel, if_neg hb]
    by_cases hcond : s.triggered = false ∧ T ≤ l
    · rw [if_pos hcond]
      obtain ⟨hnp, hinv⟩ := trigger_safe (f := f) h
      rcases ht : trigger f s with ⟨r, s1⟩
      rw [ht] at hnp hinv
      cases r with
      | ok n => exact writeCont_safe f C l hinv hp
      | err e => exact ⟨by simp, hinv⟩
      | panicked => exact absurd rfl hnp
    · rw [if_neg hcond]
      exact writeCont_safe f C l h hp

/-- No single operation panics on a session whose buffer is
newline-terminated, provided any written payload is newline-terminated, and
the invariant is preserved. -/
theorem stepOp_safe (f : Oracle) (C T : Int) {s : WState} (h : bufInv s) (op : Op)
    (hp : ∀ l p, op = Op.write l p → nlTerminated p) :
    (stepOp f C T s op).res ≠ .panicked ∧ bufInv (stepOp f C T s op).state := by
  cases op with
  | write l p => exact writeLevel_safe f C T h l (hp l p rfl)
  | trig =>
    show (triggerOp f s).res ≠ _ ∧ bufInv (triggerOp f s).state
    rw [triggerOp]
    by_cases hb : s.buf = none
    · rw [if_pos hb]
      exact ⟨by simp, h⟩
    · rw [if_neg hb]
      exact trigger_safe h
  | closeOp =>
    show (close s).res ≠ _ ∧ bufInv (close s).state
    rw [close]
    by_cases hb : s.buf = none
    · rw [if_pos hb]
      exact ⟨by simp, h⟩
    · rw [if_neg hb]
      refine ⟨by simp, ?_⟩
      intro b2 hb2
      simp at hb2

/-- A whole sequence of operations is panic-free from any session whose
buffer is newline-terminated, as long as every write carries a
newline-terminated payload. -/
theorem runSafe_inv (f : Oracle) (C T : Int) :
    ∀ (ops : List Op) (s : WState), bufInv s →
      (∀ l p, Op.write l p ∈ ops → nlTerminated p) →
      runSafe f C T ops s = true := by
  intro ops
  induction ops with
  | nil => intro s _ _; rfl
  | cons op ops ih =>
    intro s h hw
    obtain ⟨hnp, hinv⟩ :=
      stepOp_safe f C T h op (fun l p he => hw l p (he ▸ List.mem_cons_self _ _))
    show (decide ((stepOp f C T s op).res ≠ .panicked) &&
      runSafe f C T ops (stepOp f C T s op).state) = true
    rw [Bool.and_eq_true]
    exact ⟨decide_eq_true hnp,
      ih _ hinv (fun l p hm => hw l p (List.mem_cons_of_mem _ hm))⟩

/-! ## The specification claims -/

/-- C3: Round-trip of the buffer encoding.  Drain a session whose buffer
holds the concatenation of records, each encoded as one level-prefix byte
followed by its raw newline-terminated payload (no embedded newlines): the
drain recovers exactly the original records — same count, same levels,
same payloads, original order — and forwards them downstream.  The
hypothesis `goodEntry` carries the design constraint that no severity
level's byte value equals the newline byte `0x0A`. -/
theorem c3_buffer_encoding_roundtrip (f : Oracle) (hf : ∀ o l p, f o l p = false)
    (records : List Entry) (s : WState)
    (hbuf : s.buf = some (encodeBuf records)) (htr : s.triggered = false)
    (hgood : ∀ e ∈ records, goodEntry e) :
    trigger f s = ⟨.ok 0, ⟨some [], true, s.output ++ records, s.poolPuts⟩⟩ :=
  trigger_ok f hf hbuf htr hgood

/-- Witness for C3 at two concrete records, one with the negative trace
level `-1` (whose byte is `255`). -/
theorem c3_roundtrip_witness :
    (∀ e ∈ ([((-1 : Int), [104, 10]), ((3 : Int), [105, 10])] : List Entry),
      goodEntry e) ∧
    trigger noFail
        ⟨some (encodeBuf [((-1 : Int), [104, 10]), ((3 : Int), [105, 10])]),
          false, [], 0⟩ =
      ⟨.ok 0,
        ⟨some [], true,
          [] ++ [((-1 : Int), [104, 10]), ((3 : Int), [105, 10])], 0⟩⟩ := by
  have hgood : ∀ e ∈ ([((-1 : Int), [104, 10]), ((3 : Int), [105, 10])] : List Entry),
      goodEntry e := by
    intro e he
    simp only [List.mem_cons, List.not_mem_nil, or_false] at he
    rcases he with rfl | rfl
    · exact ⟨by decide, by decide, [104], rfl, by decide⟩
    · exact ⟨by decide, by decide, [105], rfl, by decide⟩
  exact ⟨hgood,
    c3_buffer_encoding_roundtrip noFail (fun _ _ _ => rfl) _ _ rfl rfl hgood⟩

/-- C6: a write whose level lies strictly between the conditional level and
the trigger level is forwarded downstream immediately — the buffer is left
untouched — regardless of whether the session is triggered. -/
theorem c6_strictly_between_passes_through (f : Oracle) (C T : Int) {s : WState}
    {b : List Nat} (hbuf : s.buf = some b) {l : Int} (hC : C < l) (hT : l < T)
    (p : List Nat) (hf : f s.output l p = false) :
    writeLevel f C T s l p =
      ⟨.ok p.length, { s with output := s.output ++ [(l, p)] }⟩ := by
  rcases Bool.eq_false_or_eq_true s.triggered with htr | htr
  · exact writeLevel_pass f C T hbuf (Or.inl htr) p hf
  · exact writeLevel_pass f C T hbuf (Or.inr ⟨htr, hC, hT⟩) p hf

/-- Witness for C6 on a triggered session. -/
theorem c6_between_witness :
    ((⟨some [], true, [], 0⟩ : WState).buf = some [] ∧ (0 : Int) < 1 ∧ (1 : Int) < 3 ∧
      noFail [] 1 [97, 10] = false) ∧
    writeLevel noFail 0 3 ⟨some [], true, [], 0⟩ 1 [97, 10] =
      ⟨.ok 2, ⟨some [], true, [((1 : Int), [97, 10])], 0⟩⟩ :=
  ⟨⟨rfl, by decide, by decide, rfl⟩,
    c6_strictly_between_passes_through noFail 0 3 rfl (by decide) (by decide)
      [97, 10] rfl⟩

/-- C7: once a session is closed, WriteLevel and Trigger fail with the
invalid-writer error and change nothing, while a second Close succeeds and
changes nothing — in particular `poolPuts` is not incremented again, so the
backing buffer is not returned to the pool twice. -/
theorem c7_closed_session_behaviour (f : Oracle) (C T : Int) {s0 : WState}
    {b : List Nat} (h : s0.buf = some b) (l : Int) (p : List Nat) :
    (close s0).state.buf = none ∧
    writeLevel f C T (close s0).state l p = ⟨.err invalidWriter, (close s0).state⟩ ∧
    triggerOp f (close s0).state = ⟨.err invalidWriter, (close s0).state⟩ ∧
    close (close s0).state = ⟨.ok 0, (close s0).state⟩ := by
  have hc : (close s0).state = { s0 with buf := none, poolPuts := s0.poolPuts + 1 } := by
    rw [close, if_neg (by rw [h]; simp)]
  rw [hc]
  exact ⟨rfl, writeLevel_closed f C T rfl l p,
    by rw [triggerOp, if_pos rfl], by rw [close, if_pos rfl]⟩

/-- Witness for C7, closing a fresh session. -/
theorem c7_closed_witness :
    fresh.buf = some [] ∧
    ((close fresh).state.buf = none ∧
      writeLevel noFail 0 3 (close fresh).state 2 [97, 10] =
        ⟨.err invalidWriter, (close fresh).state⟩ ∧
      triggerOp noFail (close fresh).state =
        ⟨.err invalidWriter, (close fresh).state⟩ ∧
      close (close fresh).state = ⟨.ok 0, (close fresh).state⟩) :=
  ⟨rfl, c7_closed_session_behaviour noFail 0 3 rfl 2 [97, 10]⟩

/-- C9: the `triggered` flag is monotonic: once true, no sequence of
operations — including ones that return errors — ever makes it false. -/
theorem c9_triggered_is_monotonic (f : Oracle) (C T : Int) (ops : List Op)
    (s : WState) (h : s.triggered = true) :
    (runOps f C T ops s).triggered = true :=
  runOps_triggered_mono f C T ops s h

/-- Witness for C9 along a sequence containing a write, closes and a
trigger after close (which errors). -/
theorem c9_monotonic_witness :
    (⟨some [], true, [], 0⟩ : WState).triggered = true ∧
    (runOps noFail 0 3 [Op.write 0 [97, 10], Op.closeOp, Op.trig, Op.closeOp]
      ⟨some [], true, [], 0⟩).triggered = true :=
  ⟨rfl, c9_triggered_is_monotonic noFail 0 3
    [Op.write 0 [97, 10], Op.closeOp, Op.trig, Op.closeOp] _ rfl⟩

/-- C10: a buffering write — open session, untriggered, level below the
trigger level and at or below the conditional level — reports the full
payload length with no error, while nothing reaches the downstream sink
(the state's `output` is unchanged; only the buffer grows). -/
theorem c10_buffered_write_reports_full_length (f : Oracle) (C T : Int)
    {s : WState} {b : List Nat} (hbuf : s.buf = some b) (htr : s.triggered = false)
    {l : Int} (hlT : l < T) (hlC : l ≤ C) (p : List Nat) :
    writeLevel f C T s l p =
      ⟨.ok p.length, { s with buf := some (b ++ byteOfLevel l :: p) }⟩ :=
  writeLevel_buffer f C T hbuf htr hlT hlC p

/-- Witness for C10 on a fresh session. -/
theorem c10_buffered_witness :
    (fresh.buf = some [] ∧ fresh.triggered = false ∧ (0 : Int) < 3 ∧ (0 : Int) ≤ 0) ∧
    writeLevel noFail 0 3 fresh 0 [97, 10] =
      ⟨.ok 2, ⟨some [0, 97, 10], false, [], 0⟩⟩ :=
  ⟨⟨rfl, rfl, by decide, by decide⟩,
    c10_buffered_write_reports_full_length noFail 0 3 (b := []) rfl rfl (by decide)
      (by decide) [97, 10]⟩

/-- C8 as stated — "for every session state … the second call … returns
success" — fails on a closed session: after closing a fresh session, the
second of two successive Trigger calls returns the invalid-writer error,
not success. -/
theorem c8_second_trigger_success_counterexample :
    (triggerOp noFail (triggerOp noFail (close fresh).state).state).res =
      Res.err invalidWriter := rfl

/-- C8 (amended): on every OPEN session, Trigger is idempotent — after one
Trigger call, a second call changes neither the downstream transcript nor
any other part of the state, writes nothing downstream, and returns
success.  (After Close, Trigger instead fails with the invalid-writer
error.) -/
theorem c8_trigger_idempotent_when_open (f : Oracle) {s : WState} {b : List Nat}
    (hbuf : s.buf = some b) :
    triggerOp f (triggerOp f s).state = ⟨.ok 0, (triggerOp f s).state⟩ := by
  by_cases htr : s.triggered = true
  · have hin : triggerOp f s = ⟨.ok 0, s⟩ := by
      rw [triggerOp, if_neg (by rw [hbuf]; simp), trigger_already f htr]
    rw [hin]
    show triggerOp f s = ⟨.ok 0, s⟩
    exact hin
  · have htr' : s.triggered = false := by simpa using htr
    have hin : triggerOp f s =
        ⟨(drainLoop f (s.buf.getD []) { s with triggered := true }).res,
          { (drainLoop f (s.buf.getD []) { s with triggered := true }).state with
            buf := some [] }⟩ := by
      rw [triggerOp, if_neg (by rw [hbuf]; simp), trigger, htr', if_neg (by simp)]
    rw [hin]
    have htrig :
        ((drainLoop f (s.buf.getD []) { s with triggered := true }).state).triggered
          = true := by
      obtain ⟨-, h2, -⟩ := drainLoop_fields f (s.buf.getD []).length (s.buf.getD [])
        { s with triggered := true } le_rfl
      rw [h2]
    show triggerOp f
        { (drainLoop f (s.buf.getD []) { s with triggered := true }).state with
          buf := some [] } = _
    rw [triggerOp, if_neg (by simp),
      trigger_already f
        (s := { (drainLoop f (s.buf.getD []) { s with triggered := true }).state with
          buf := some [] }) htrig]

/-- Witness for the amended C8 on a fresh (open) session. -/
theorem c8_amended_witness :
    fresh.buf = some [] ∧
    triggerOp noFail (triggerOp noFail fresh).state =
      ⟨.ok 0, (triggerOp noFail fresh).state⟩ :=
  ⟨rfl, c8_trigger_idempotent_when_open noFail (b := []) rfl⟩

/-- C2: for a sequence of writes all strictly below the trigger level and
at or below the conditional level, with Trigger never called and the
session closed at the end, the downstream sink receives nothing at any
point of the run — the buffered entries are discarded by Close. -/
theorem c2_never_triggered_forwards_nothing (f : Oracle) (C T : Int)
    (ws : List Entry) (hlev : ∀ e ∈ ws, e.1 < T ∧ e.1 ≤ C) (k : Nat) :
    (runOps f C T ((writes ws ++ [Op.closeOp]).take k) fresh).output = [] := by
  rcases le_or_lt k (writes ws).length with hk | hk
  · rw [List.take_append_eq_append_take,
      show k - (writes ws).length = 0 from by omega, List.take_zero,
      List.append_nil, writes_take]
    rw [runOps_writes_buffered f C T (ws.take k) fresh [] rfl rfl
      (fun e he => hlev e (List.take_subset _ _ he))]
    rfl
  · rw [List.take_of_length_le
      (by simp only [List.length_append, List.length_cons, List.length_nil]; omega)]
    rw [runOps_append]
    rw [runOps_writes_buffered f C T ws fresh [] rfl rfl hlev]
    show ((close _).state).output = []
    rw [close_state_output]
    rfl

/-- Witness for C2: one buffered write followed by Close. -/
theorem c2_silent_witness :
    (∀ e ∈ ([((0 : Int), [97, 10])] : List Entry), e.1 < 3 ∧ e.1 ≤ 0) ∧
    (runOps noFail 0 3 ((writes [((0 : Int), [97, 10])] ++ [Op.closeOp]).take 2)
      fresh).output = [] :=
  ⟨by decide, c2_never_triggered_forwards_nothing noFail 0 3 _ (by decide) 2⟩

/-- C4: no operation of the session panics.  Starting from a fresh session,
any sequence of WriteLevel / Trigger / Close calls whose written payloads
are complete newline-terminated entries runs panic-free: the drain loop's
newline scan always finds a terminator, the recovered line is non-empty so
its level-byte access is in bounds, and the loop terminates (`drainLoop`
is a total function).  All failures surface as returned `Res.err` values. -/
theorem c4_no_operation_panics (f : Oracle) (C T : Int) (ops : List Op)
    (hp : ∀ l p, Op.write l p ∈ ops → nlTerminated p) :
    runSafe f C T ops fresh = true :=
  runSafe_inv f C T ops fresh (fun b hb => Option.some.inj hb ▸ endsNL_nil) hp

/-- Witness for C4 along a sequence exercising buffering, draining,
pass-through, close and trigger-after-close. -/
theorem c4_no_panic_witness :
    (∀ l p, Op.write l p ∈
        [Op.write 0 [97, 10], Op.trig, Op.write 5 [98, 10], Op.closeOp, Op.trig] →
      nlTerminated p) ∧
    runSafe noFail 0 3
      [Op.write 0 [97, 10], Op.trig, Op.write 5 [98, 10], Op.closeOp, Op.trig]
      fresh = true := by
  have hp : ∀ l p, Op.write l p ∈
      [Op.write (0 : Int) [97, 10], Op.trig, Op.write 5 [98, 10], Op.closeOp,
        Op.trig] → nlTerminated p := by
    intro l p hm
    simp only [List.mem_cons, List.not_mem_nil, or_false, false_or, Op.write.injEq,
      reduceCtorEq] at hm
    rcases hm with ⟨-, h2⟩ | ⟨-, h2⟩
    · subst h2
      exact ⟨[97], rfl, by decide⟩
    · subst h2
      exact ⟨[98], rfl, by decide⟩
  exact ⟨hp, c4_no_operation_panics noFail 0 3 _ hp⟩

/-- C5: a downstream write failure during a drain — started either by a
WriteLevel call at or above the trigger level or by an explicit Trigger —
stops the drain at the failing record (exactly the records before it were
forwarded), returns the error to the caller of that operation, leaves the
session triggered nonetheless, and a repeated Trigger is a success-returning
no-op rather than a retry of the drain. -/
theorem c5_drain_failure_propagates (f : Oracle) (C T : Int) (pre : List Entry)
    (bad : Entry) (tail : List Entry) {s : WState}
    (hbuf : s.buf = some (encodeBuf (pre ++ bad :: tail))) (htr : s.triggered = false)
    (hgood : ∀ e ∈ pre, goodEntry e) (hbad : goodEntry bad)
    (hok : ∀ i (h : i < pre.length),
      f (s.output ++ pre.take i) pre[i].1 pre[i].2 = false)
    (hfail : f (s.output ++ pre) bad.1 bad.2 = true)
    {l : Int} (hl : T ≤ l) (p : List Nat) :
    writeLevel f C T s l p =
      ⟨.err downErr, ⟨some [], true, s.output ++ pre, s.poolPuts⟩⟩ ∧
    triggerOp f s = ⟨.err downErr, ⟨some [], true, s.output ++ pre, s.poolPuts⟩⟩ ∧
    triggerOp f ⟨some [], true, s.output ++ pre, s.poolPuts⟩ =
      ⟨.ok 0, ⟨some [], true, s.output ++ pre, s.poolPuts⟩⟩ := by
  refine ⟨writeLevel_trigger_err f C T hbuf htr hgood hbad hok hfail hl p, ?_, ?_⟩
  · rw [triggerOp, if_neg (by rw [hbuf]; simp),
      trigger_err f hbuf htr hgood hbad hok hfail]
  · rw [triggerOp, if_neg (by simp), trigger_already f rfl]

/-- Witness for C5: a sink that accepts one record then fails, a buffer of
two records. -/
theorem c5_failure_witness :
    (∀ e ∈ ([((0 : Int), [97, 10])] : List Entry), goodEntry e) ∧
    goodEntry ((1 : Int), [98, 10]) ∧
    (∀ i (h : i < ([((0 : Int), [97, 10])] : List Entry).length),
      failAfterOne ([] ++ ([((0 : Int), [97, 10])] : List Entry).take i)
        ([((0 : Int), [97, 10])] : List Entry)[i].1
        ([((0 : Int), [97, 10])] : List Entry)[i].2 = false) ∧
    failAfterOne ([] ++ [((0 : Int), [97, 10])]) 1 [98, 10] = true ∧
    (writeLevel failAfterOne 0 3
        ⟨some (encodeBuf [((0 : Int), [97, 10]), ((1 : Int), [98, 10])]), false, [], 0⟩
        5 [99, 10] =
      ⟨.err downErr, ⟨some [], true, [] ++ [((0 : Int), [97, 10])], 0⟩⟩ ∧
    triggerOp failAfterOne
        ⟨some (encodeBuf [((0 : Int), [97, 10]), ((1 : Int), [98, 10])]), false, [], 0⟩ =
      ⟨.err downErr, ⟨some [], true, [] ++ [((0 : Int), [97, 10])], 0⟩⟩ ∧
    triggerOp failAfterOne ⟨some [], true, [] ++ [((0 : Int), [97, 10])], 0⟩ =
      ⟨.ok 0, ⟨some [], true, [] ++ [((0 : Int), [97, 10])], 0⟩⟩) := by
  have hgood : ∀ e ∈ ([((0 : Int), [97, 10])] : List Entry), goodEntry e := by
    intro e he
    simp only [List.mem_cons, List.not_mem_nil, or_false] at he
    subst he
    exact ⟨by decide, by decide, [97], rfl, by decide⟩
  have hbad : goodEntry ((1 : Int), [98, 10]) :=
    ⟨by decide, by decide, [98], rfl, by decide⟩
  exact ⟨hgood, hbad, by decide, rfl,
    c5_drain_failure_propagates failAfterOne 0 3 [((0 : Int), [97, 10])]
      ((1 : Int), [98, 10]) []
      (s := ⟨some (encodeBuf [((0 : Int), [97, 10]), ((1 : Int), [98, 10])]),
        false, [], 0⟩)
      rfl rfl hgood hbad (by decide) rfl (l := 5) (by decide) [99, 10]⟩

/-- C1: from a fresh session, along a sequence of writes all strictly below
the trigger level, the first write at or above the trigger level first
flushes every previously buffered entry downstream in original arrival
order, then forwards the triggering entry itself immediately after, and
every subsequent write is forwarded directly downstream regardless of
level. -/
theorem c1_trigger_flushes_then_passes (f : Oracle) (hf : ∀ o l p, f o l p = false)
    (C T : Int) (ws post : List Entry) (lt : Int) (pt : List Nat)
    (hws : ∀ e ∈ ws, e.1 < T) (hgood : ∀ e ∈ lowEntries C ws, goodEntry e)
    (hlt : T ≤ lt) :
    writeLevel f C T (runOps f C T (writes ws) fresh) lt pt =
      ⟨.ok pt.length,
        ⟨some [], true, highEntries C ws ++ lowEntries C ws ++ [(lt, pt)], 0⟩⟩ ∧
    runOps f C T (writes post)
        (writeLevel f C T (runOps f C T (writes ws) fresh) lt pt).state =
      ⟨some [], true, (highEntries C ws ++ lowEntries C ws ++ [(lt, pt)]) ++ post, 0⟩ := by
  have h0 : runOps f C T (writes ws) fresh =
      ⟨some (encodeBuf (lowEntries C ws)), false, highEntries C ws, 0⟩ := by
    have h := runOps_writes_untriggered f hf C T ws fresh [] rfl rfl hws
    simpa [fresh] using h
  have h1 : writeLevel f C T (runOps f C T (writes ws) fresh) lt pt =
      ⟨.ok pt.length,
        ⟨some [], true, highEntries C ws ++ lowEntries C ws ++ [(lt, pt)], 0⟩⟩ := by
    rw [h0]
    have h := writeLevel_trigger f hf C T
      (s := ⟨some (encodeBuf (lowEntries C ws)), false, highEntries C ws, 0⟩)
      rfl rfl hgood hlt pt
    simpa using h
  refine ⟨h1, ?_⟩
  rw [h1]
  have h2 := runOps_writes_triggered f hf C T post
    (s := ⟨some [], true, highEntries C ws ++ lowEntries C ws ++ [(lt, pt)], 0⟩)
    [] rfl rfl
  simpa using h2

/-- Witness for C1: a buffered debug entry and a passed-through info entry,
then a triggering error entry, then one more write. -/
theorem c1_flush_witness :
    (∀ e ∈ ([((0 : Int), [97, 10]), ((1 : Int), [98, 10])] : List Entry), e.1 < 3) ∧
    (∀ e ∈ lowEntries 0 ([((0 : Int), [97, 10]), ((1 : Int), [98, 10])] : List Entry),
      goodEntry e) ∧
    (3 : Int) ≤ 3 ∧
    (writeLevel noFail 0 3
        (runOps noFail 0 3
          (writes [((0 : Int), [97, 10]), ((1 : Int), [98, 10])]) fresh) 3 [99, 10] =
      ⟨.ok 2,
        ⟨some [], true,
          highEntries 0 [((0 : Int), [97, 10]), ((1 : Int), [98, 10])] ++
            lowEntries 0 [((0 : Int), [97, 10]), ((1 : Int), [98, 10])] ++
            [((3 : Int), [99, 10])], 0⟩⟩ ∧
    runOps noFail 0 3 (writes [((2 : Int), [100, 10])])
        (writeLevel noFail 0 3
          (runOps noFail 0 3
            (writes [((0 : Int), [97, 10]), ((1 : Int), [98, 10])]) fresh) 3
          [99, 10]).state =
      ⟨some [], true,
        (highEntries 0 [((0 : Int), [97, 10]), ((1 : Int), [98, 10])] ++
          lowEntries 0 [((0 : Int), [97, 10]), ((1 : Int), [98, 10])] ++
          [((3 : Int), [99, 10])]) ++ [((2 : Int), [100, 10])], 0⟩) := by
  have hws : ∀ e ∈ ([((0 : Int), [97, 10]), ((1 : Int), [98, 10])] : List Entry),
      e.1 < 3 := by decide
  have hgood : ∀ e ∈ lowEntries 0
      ([((0 : Int), [97, 10]), ((1 : Int), [98, 10])] : List Entry), goodEntry e := by
    intro e he
    rw [show lowEntries 0 ([((0 : Int), [97, 10]), ((1 : Int), [98, 10])] : List Entry)
        = [((0 : Int), [97, 10])] from rfl] at he
    simp only [List.mem_cons, List.not_mem_nil, or_false] at he
    subst he
    exact ⟨by decide, by decide, [97], rfl, by decide⟩
  exact ⟨hws, hgood, by decide,
    c1_trigger_flushes_then_passes noFail (fun _ _ _ => rfl) 0 3
      [((0 : Int), [97, 10]), ((1 : Int), [98, 10])] [((2 : Int), [100, 10])] 3
      [99, 10] hws hgood (by decide)⟩

end TriggerWriter
